import Mathlib

/-!
Shallow embedding of the cue-synchronized timeline assembly in
`tools/tts_build.py` (the per-session build loop, `slugify`, and the
collaborator boundaries), together with theorems settling the frozen
claims about it.

Modelling conventions:
* Python floats are modelled as exact rationals (`ℚ`); the script's
  literal constants (`1.0` lead time, `0.08` tone, `0.001` epsilon)
  appear literally, as in the source.
* An audio clip is represented only by the data the claims talk about:
  its kind and its duration.  `make_silence` produces a silence clip of
  the requested (clamped) duration; the beep WAV is a 0.08 s tone
  (`make_beep` default); a TTS WAV is a speech clip whose measured
  duration is determined by the synthesizer.
* The synthesizer (`tts_wav`, which shells out to `espeak-ng`) is a
  parameter `synth : String → Except String ℚ`: on success it yields the
  measured duration of the produced clip, on failure the raised error's
  message.  The raised `CalledProcessError` carries the command line,
  which contains the cue's text (but not the loop index), so the failure
  value records the failing text; it also records the program state
  (`parts`, `now_t`) at the moment the exception propagates.
-/

deriving instance DecidableEq for Except

namespace TtsBuild

/-- One cue of a session: `{t: number(seconds), text: string}`. -/
structure Cue where
  t : ℚ
  text : String
deriving DecidableEq, Repr

/-- One atomic clip appended to `parts` by the build loop. -/
inductive Segment where
  | silence (duration : ℚ)
  | tone (duration : ℚ)
  | speech (text : String) (duration : ℚ)
deriving DecidableEq, Repr

/-- Duration of a segment's clip, in seconds. -/
def Segment.duration : Segment → ℚ
  | .silence d => d
  | .tone d => d
  | .speech _ d => d

/-- Whether a segment is a Speech clip. -/
def Segment.isSpeech : Segment → Bool
  | .speech _ _ => true
  | _ => false

/-- Whether a segment is a Tone (beep) clip. -/
def Segment.isTone : Segment → Bool
  | .tone _ => true
  | _ => false

/-- Python's `str.strip()` with no argument: remove leading and trailing
whitespace.  Modelled structurally over the character list. -/
def pyStrip (s : String) : String :=
  String.mk (((s.data.dropWhile Char.isWhitespace).reverse.dropWhile
    Char.isWhitespace).reverse)

/-- The state the script threads through one session's cue loop:
the `parts` list of appended clips and the cursor `now_t`. -/
structure BuildState where
  parts : List Segment
  now_t : ℚ
deriving DecidableEq, Repr

/-- The propagated synthesis failure: `tts_wav` raises
`CalledProcessError`, whose command line carries the cue's text; the
local loop state (`parts`, `now_t`) at that moment is also recorded. -/
structure SynthFailure where
  text : String
  msg : String
  parts : List Segment
  now_t : ℚ
deriving DecidableEq, Repr

/-- One iteration of the cue loop of `tts_build.py` (the body of
`for i, cue in enumerate(cues)`): skip empty text, pre-beep silence,
beep, fill silence, TTS.  Step 5 of the source deliberately does not
advance `now_t` for the speech clip. -/
def processCue (synth : String → Except String ℚ) (st : BuildState) (cue : Cue) :
    Except SynthFailure BuildState :=
  let txt := pyStrip cue.text
  if txt = "" then Except.ok st
  else
    let t := cue.t
    let pre_gap := (t - 1.0) - st.now_t
    let st1 : BuildState :=
      if pre_gap > 0.001 then ⟨st.parts ++ [Segment.silence pre_gap], st.now_t + pre_gap⟩
      else st
    let st2 : BuildState := ⟨st1.parts ++ [Segment.tone 0.08], st1.now_t + 0.08⟩
    let fill := t - st2.now_t
    let st3 : BuildState :=
      if fill > 0.001 then ⟨st2.parts ++ [Segment.silence fill], st2.now_t + fill⟩
      else st2
    match synth txt with
    | Except.error e => Except.error ⟨txt, e, st3.parts, st3.now_t⟩
    | Except.ok d => Except.ok ⟨st3.parts ++ [Segment.speech txt d], st3.now_t⟩

/-- The cue loop itself, folded over the remaining cues. -/
def buildLoop (synth : String → Except String ℚ) :
    List Cue → BuildState → Except SynthFailure BuildState
  | [], st => Except.ok st
  | c :: cs, st =>
      match processCue synth st c with
      | Except.error f => Except.error f
      | Except.ok st1 => buildLoop synth cs st1

/-- One session's timeline compilation: `parts = []`, `now_t = 0.0`,
then the cue loop. -/
def compile (synth : String → Except String ℚ) (cues : List Cue) :
    Except SynthFailure BuildState :=
  buildLoop synth cues ⟨[], 0⟩

/-- A deterministic synthesizer returning fixed half-second clips. -/
def synthHalf : String → Except String ℚ := fun _ => Except.ok 0.5

/-- The end-to-end example's cue list. -/
def exampleCues : List Cue := [⟨5.0, "start"⟩, ⟨10.0, "end"⟩]

/-- Cursor value after the optional pre-beep silence for a cue at `t`,
starting from cursor `now`. -/
def cueAfterPre (now t : ℚ) : ℚ :=
  if (t - 1.0) - now > 0.001 then now + ((t - 1.0) - now) else now

/-- Cursor value after the beep for a cue at `t`, starting from `now`. -/
def cueAfterTone (now t : ℚ) : ℚ := cueAfterPre now t + 0.08

/-- Cursor value after the optional fill silence for a cue at `t`,
starting from `now`; the TTS step leaves the cursor here. -/
def cueEnd (now t : ℚ) : ℚ :=
  if t - cueAfterTone now t > 0.001 then cueAfterTone now t + (t - cueAfterTone now t)
  else cueAfterTone now t

/-- The clips the loop appends for one non-empty cue before the TTS
call: optional pre-beep silence, the 0.08 s beep, optional fill
silence. -/
def cueLead (now t : ℚ) : List Segment :=
  (if (t - 1.0) - now > 0.001 then [Segment.silence ((t - 1.0) - now)] else []) ++
  [Segment.tone 0.08] ++
  (if t - cueAfterTone now t > 0.001 then [Segment.silence (t - cueAfterTone now t)] else [])

/-- Sum of the durations of a list of clips. -/
def sumDur (l : List Segment) : ℚ := (l.map Segment.duration).sum

/-- Sum of the durations of the non-Speech clips in a list. -/
def advSum (l : List Segment) : ℚ :=
  (l.map fun s => if s.isSpeech then 0 else s.duration).sum

/-- Sum of the durations of the Silence clips in a list. -/
def silSum (l : List Segment) : ℚ :=
  (l.map fun s => match s with | Segment.silence d => d | _ => 0).sum

/-- Number of Tone clips in a list. -/
def toneCnt (l : List Segment) : ℕ := l.countP fun s => s.isTone

/-- Absolute start position of the clip at index `i` in the
concatenated output timeline. -/
def startAt (l : List Segment) (i : ℕ) : ℚ := sumDur (l.take i)

/-- The character class kept by the `[^a-z0-9]+` substitution in
`slugify` (applied after lowercasing). -/
def isSlugKeep (c : Char) : Bool := ('a' ≤ c && c ≤ 'z') || ('0' ≤ c && c ≤ '9')

/-- The substitution `re.sub(r"[^a-z0-9]+", "-", s)`: each maximal run
of characters outside `[a-z0-9]` becomes a single `'-'`.  The Boolean
flag records whether the previous character belonged to such a run. -/
def collapseRuns : Bool → List Char → List Char
  | _, [] => []
  | inRun, c :: cs =>
      if isSlugKeep c then c :: collapseRuns false cs
      else if inRun then collapseRuns true cs
      else '-' :: collapseRuns true cs

/-- Python `.strip("-")`: remove leading and trailing `'-'`
characters. -/
def stripDash (l : List Char) : List Char :=
  ((l.dropWhile fun c => c == '-').reverse.dropWhile fun c => c == '-').reverse

/-- The `slugify` helper of `tts_build.py`: lowercase the title,
collapse runs of non-alphanumerics to `'-'`, strip `'-'` from both
ends, and truncate to 80 characters. -/
def slugify (title : String) : String :=
  String.mk ((stripDash (collapseRuns false (title.data.map Char.toLower))).take 80)

/-- An optional silence slot in a per-cue block: either absent or one
Silence clip longer than the 0.001 epsilon. -/
def IsOptSil (l : List Segment) : Prop :=
  l = [] ∨ ∃ g, 0.001 < g ∧ l = [Segment.silence g]

/-- The clip pattern one non-empty cue contributes: optional Silence,
the Tone, optional Silence, then the cue's Speech clip. -/
def IsCueBlock (c : Cue) (blk : List Segment) : Prop :=
  ∃ o1 o2 d, IsOptSil o1 ∧ IsOptSil o2 ∧
    blk = o1 ++ [Segment.tone 0.08] ++ o2 ++ [Segment.speech (pyStrip c.text) d]

/-- The output clip list decomposes, cue by cue in input order, into
blocks: empty cues contribute nothing, non-empty cues contribute one
`IsCueBlock` block each. -/
inductive SegsMatch : List Cue → List Segment → Prop where
  | nil : SegsMatch [] []
  | skip {c : Cue} {cs : List Cue} {segs : List Segment} :
      pyStrip c.text = "" → SegsMatch cs segs → SegsMatch (c :: cs) segs
  | cue {c : Cue} {cs : List Cue} {blk segs : List Segment} :
      pyStrip c.text ≠ "" → IsCueBlock c blk → SegsMatch cs segs →
      SegsMatch (c :: cs) (blk ++ segs)

/-- The clip sequence the script actually produces for the end-to-end
example cues with the fixed half-second synthesizer. -/
def exSegs : List Segment :=
  [Segment.silence 4, Segment.tone 0.08, Segment.silence 0.92,
    Segment.speech "start" 0.5, Segment.silence 4, Segment.tone 0.08,
    Segment.silence 0.92, Segment.speech "end" 0.5]

/-- A synthesizer that fails on the text `"end"` and yields fixed
half-second clips otherwise. -/
def synthFailEnd : String → Except String ℚ :=
  fun s => if s = "end" then Except.error "synthesis failed" else Except.ok 0.5

/-- The clips already appended when synthesis of `"end"` fails in the
end-to-end example: all of cue 0's clips plus cue 1's pre-beep silence,
beep, and fill silence. -/
def failParts : List Segment :=
  [Segment.silence 4, Segment.tone 0.08, Segment.silence 0.92,
    Segment.speech "start" 0.5, Segment.silence 4, Segment.tone 0.08,
    Segment.silence 0.92]

/-- The drift-absorption example's cue list: `t=[2.0, 2.05]`. -/
def driftCues : List Cue := [⟨2, "a"⟩, ⟨2.05, "b"⟩]

/-- The clip sequence produced for the drift example; the second cue's
nominal tone time 1.05 lies before the cursor, so no silence (in
particular no negative silence) is emitted before its beep. -/
def driftSegs (d0 d1 : ℚ) : List Segment :=
  [Segment.silence 1, Segment.tone 0.08, Segment.silence 0.92,
    Segment.speech "a" d0, Segment.tone 0.08, Segment.speech "b" d1]

theorem processCue_skip (synth : String → Except String ℚ) (st : BuildState) (c : Cue)
    (h : pyStrip c.text = "") : processCue synth st c = Except.ok st := by
  simp [processCue, h]

theorem processCue_ok (synth : String → Except String ℚ) (st : BuildState) (c : Cue) (d : ℚ)
    (h : pyStrip c.text ≠ "") (hd : synth (pyStrip c.text) = Except.ok d) :
    processCue synth st c =
      Except.ok ⟨st.parts ++ cueLead st.now_t c.t ++ [Segment.speech (pyStrip c.text) d],
        cueEnd st.now_t c.t⟩ := by
  unfold processCue cueLead cueEnd cueAfterTone cueAfterPre
  simp only [h, if_neg, hd]
  split_ifs <;> simp_all

theorem processCue_err (synth : String → Except String ℚ) (st : BuildState) (c : Cue) (e : String)
    (h : pyStrip c.text ≠ "") (he : synth (pyStrip c.text) = Except.error e) :
    processCue synth st c =
      Except.error ⟨pyStrip c.text, e, st.parts ++ cueLead st.now_t c.t,
        cueEnd st.now_t c.t⟩ := by
  unfold processCue cueLead cueEnd cueAfterTone cueAfterPre
  simp only [h, if_neg, he]
  split_ifs <;> simp_all

theorem processCue_ok_cases (synth : String → Except String ℚ) (st : BuildState) (c : Cue)
    (st2 : BuildState) (h : processCue synth st c = Except.ok st2) :
    (pyStrip c.text = "" ∧ st2 = st) ∨
    (pyStrip c.text ≠ "" ∧ ∃ d, synth (pyStrip c.text) = Except.ok d ∧
      st2 = ⟨st.parts ++ cueLead st.now_t c.t ++ [Segment.speech (pyStrip c.text) d],
        cueEnd st.now_t c.t⟩) := by
  by_cases htxt : pyStrip c.text = ""
  · left
    refine ⟨htxt, ?_⟩
    rw [processCue_skip synth st c htxt] at h
    exact (Except.ok.injEq _ _ ▸ h).symm
  · right
    refine ⟨htxt, ?_⟩
    cases hsyn : synth (pyStrip c.text) with
    | error e =>
        rw [processCue_err synth st c e htxt hsyn] at h
        exact absurd h (by simp)
    | ok d =>
        refine ⟨d, rfl, ?_⟩
        rw [processCue_ok synth st c d htxt hsyn] at h
        exact (Except.ok.injEq _ _ ▸ h).symm

theorem processCue_err_cases (synth : String → Except String ℚ) (st : BuildState) (c : Cue)
    (f : SynthFailure) (h : processCue synth st c = Except.error f) :
    pyStrip c.text ≠ "" ∧ synth (pyStrip c.text) = Except.error f.msg ∧
      f = ⟨pyStrip c.text, f.msg, st.parts ++ cueLead st.now_t c.t, cueEnd st.now_t c.t⟩ := by
  by_cases htxt : pyStrip c.text = ""
  · rw [processCue_skip synth st c htxt] at h
    exact absurd h (by simp)
  · refine ⟨htxt, ?_⟩
    cases hsyn : synth (pyStrip c.text) with
    | error e =>
        rw [processCue_err synth st c e htxt hsyn] at h
        have hf : f = ⟨pyStrip c.text, e, st.parts ++ cueLead st.now_t c.t,
            cueEnd st.now_t c.t⟩ := (Except.error.injEq _ _ ▸ h).symm
        subst hf
        exact ⟨by simp [hsyn], rfl⟩
    | ok d =>
        rw [processCue_ok synth st c d htxt hsyn] at h
        exact absurd h (by simp)

theorem buildLoop_ok_induct (synth : String → Except String ℚ) (P : BuildState → Prop)
    (hstep : ∀ st c st2, processCue synth st c = Except.ok st2 → P st → P st2) :
    ∀ cues st st2, buildLoop synth cues st = Except.ok st2 → P st → P st2 := by
  intro cues
  induction cues with
  | nil =>
      intro st st2 hb hP
      simp only [buildLoop] at hb
      exact (Except.ok.injEq _ _ ▸ hb) ▸ hP
  | cons c cs ih =>
      intro st st2 hb hP
      simp only [buildLoop] at hb
      cases hproc : processCue synth st c with
      | error f => rw [hproc] at hb; exact absurd hb (by simp)
      | ok st1 =>
          rw [hproc] at hb
          exact ih st1 st2 hb (hstep st c st1 hproc hP)

theorem buildLoop_err_induct (synth : String → Except String ℚ) (P : BuildState → Prop)
    (Q : SynthFailure → Prop)
    (hstep : ∀ st c st2, processCue synth st c = Except.ok st2 → P st → P st2)
    (herr : ∀ st c f, processCue synth st c = Except.error f → P st → Q f) :
    ∀ cues st f, buildLoop synth cues st = Except.error f → P st → Q f := by
  intro cues
  induction cues with
  | nil =>
      intro st f hb
      simp only [buildLoop] at hb
      exact absurd hb (by simp)
  | cons c cs ih =>
      intro st f hb hP
      simp only [buildLoop] at hb
      cases hproc : processCue synth st c with
      | error f1 =>
          rw [hproc] at hb
          have : f1 = f := by simpa using hb
          exact this ▸ herr st c f1 hproc hP
      | ok st1 =>
          rw [hproc] at hb
          exact ih st1 f hb (hstep st c st1 hproc hP)

theorem sumDur_append (l1 l2 : List Segment) : sumDur (l1 ++ l2) = sumDur l1 + sumDur l2 := by
  simp [sumDur]

theorem advSum_append (l1 l2 : List Segment) : advSum (l1 ++ l2) = advSum l1 + advSum l2 := by
  simp [advSum]

theorem silSum_append (l1 l2 : List Segment) : silSum (l1 ++ l2) = silSum l1 + silSum l2 := by
  simp [silSum]

theorem toneCnt_append (l1 l2 : List Segment) :
    toneCnt (l1 ++ l2) = toneCnt l1 + toneCnt l2 := by
  simp [toneCnt, List.countP_append]

theorem cueLead_sumDur (now t : ℚ) : sumDur (cueLead now t) = cueEnd now t - now := by
  unfold cueLead cueEnd cueAfterTone cueAfterPre
  split_ifs <;> simp [sumDur, Segment.duration] <;> ring

theorem cueLead_advSum (now t : ℚ) : advSum (cueLead now t) = cueEnd now t - now := by
  unfold cueLead cueEnd cueAfterTone cueAfterPre
  split_ifs <;> simp [advSum, Segment.duration, Segment.isSpeech] <;> ring

theorem cueLead_silSum (now t : ℚ) :
    silSum (cueLead now t) + 0.08 = cueEnd now t - now := by
  unfold cueLead cueEnd cueAfterTone cueAfterPre
  split_ifs <;> simp [silSum] <;> ring

theorem cueLead_toneCnt (now t : ℚ) : toneCnt (cueLead now t) = 1 := by
  unfold cueLead cueAfterTone cueAfterPre
  split_ifs <;> simp [toneCnt, Segment.isTone]

theorem cueEnd_ge (now t : ℚ) : now + 0.08 ≤ cueEnd now t := by
  unfold cueEnd cueAfterTone cueAfterPre
  split_ifs <;> linarith

theorem cueLead_mem (now t : ℚ) (s : Segment) (hs : s ∈ cueLead now t) :
    (∃ g, s = Segment.silence g ∧ 0.001 < g) ∨ s = Segment.tone 0.08 := by
  unfold cueLead cueAfterTone cueAfterPre at hs
  split_ifs at hs
  · simp at hs
    rcases hs with hs | hs | hs
    · exact Or.inl ⟨_, hs, by linarith⟩
    · exact Or.inr hs
    · exact Or.inl ⟨_, hs, by linarith⟩
  · simp at hs
    rcases hs with hs | hs
    · exact Or.inl ⟨_, hs, by linarith⟩
    · exact Or.inr hs
  · simp at hs
    rcases hs with hs | hs
    · exact Or.inr hs
    · exact Or.inl ⟨_, hs, by linarith⟩
  · simp at hs
    exact Or.inr hs

theorem mem_of_dropWhile {α : Type} (p : α → Bool) :
    ∀ (l : List α) (a : α), a ∈ l.dropWhile p → a ∈ l := by
  intro l
  induction l with
  | nil => intro a h; exact absurd h (by simp)
  | cons c cs ih =>
      intro a h
      by_cases hc : p c
      · rw [List.dropWhile_cons_of_pos hc] at h
        exact List.mem_cons_of_mem c (ih a h)
      · rw [List.dropWhile_cons_of_neg (by simpa using hc)] at h
        exact h

theorem mem_of_take {α : Type} : ∀ (n : ℕ) (l : List α) (a : α), a ∈ l.take n → a ∈ l := by
  intro n
  induction n with
  | zero => intro l a h; exact absurd h (by simp)
  | succ m ih =>
      intro l a h
      cases l with
      | nil => exact absurd h (by simp)
      | cons c cs =>
          simp only [List.take_succ_cons] at h
          rcases List.mem_cons.mp h with h | h
          · exact h ▸ List.mem_cons_self c cs
          · exact List.mem_cons_of_mem c (ih cs a h)

theorem collapseRuns_chars :
    ∀ (b : Bool) (l : List Char) (c : Char), c ∈ collapseRuns b l →
      isSlugKeep c = true ∨ c = '-' := by
  intro b l
  induction l generalizing b with
  | nil => intro c h; exact absurd h (by simp [collapseRuns])
  | cons x xs ih =>
      intro c h
      unfold collapseRuns at h
      split_ifs at h with h1 h2
      · rcases List.mem_cons.mp h with h | h
        · exact Or.inl (h ▸ h1)
        · exact ih false c h
      · exact ih true c h
      · rcases List.mem_cons.mp h with h | h
        · exact Or.inr h
        · exact ih true c h

theorem stripDash_chars (l : List Char) (c : Char) (h : c ∈ stripDash l) : c ∈ l := by
  unfold stripDash at h
  rw [List.mem_reverse] at h
  have h1 := mem_of_dropWhile _ _ _ h
  rw [List.mem_reverse] at h1
  exact mem_of_dropWhile _ _ _ h1

theorem head_dropWhileDash :
    ∀ (l : List Char) (c : Char),
      (l.dropWhile fun x => x == '-').head? = some c → ¬ c = '-' := by
  intro l
  induction l with
  | nil => intro c h; exact absurd h (by simp)
  | cons x xs ih =>
      intro c h
      by_cases hx : x = '-'
      · rw [List.dropWhile_cons_of_pos (by simp [hx])] at h
        exact ih c h
      · rw [List.dropWhile_cons_of_neg (by simp [hx])] at h
        simp only [List.head?_cons, Option.some.injEq] at h
        exact h ▸ hx

theorem getLast_dropWhileDash :
    ∀ (l : List Char),
      (l.dropWhile fun x => x == '-') = [] ∨
      (l.dropWhile fun x => x == '-').getLast? = l.getLast? := by
  intro l
  induction l with
  | nil => exact Or.inl rfl
  | cons x xs ih =>
      by_cases hx : x = '-'
      · rw [List.dropWhile_cons_of_pos (by simp [hx])]
        rcases ih with ih | ih
        · exact Or.inl ih
        · rcases hxs : xs with _ | ⟨y, ys⟩
          · exact Or.inl (by simp [hxs ▸ ih, hxs])
          · exact Or.inr (by rw [← hxs, ih, hxs, List.getLast?_cons_cons])
      · rw [List.dropWhile_cons_of_neg (by simp [hx])]
        exact Or.inr rfl

theorem stripDash_head (l : List Char) (c : Char) (h : (stripDash l).head? = some c) :
    ¬ c = '-' := by
  unfold stripDash at h
  rw [List.head?_reverse] at h
  rcases getLast_dropWhileDash (l.dropWhile fun c => c == '-').reverse with he | he
  · rw [he] at h
    exact absurd h (by simp)
  · rw [he, List.getLast?_reverse] at h
    exact head_dropWhileDash _ _ h

theorem stripDash_last (l : List Char) (c : Char) (h : (stripDash l).getLast? = some c) :
    ¬ c = '-' := by
  unfold stripDash at h
  rw [List.getLast?_reverse] at h
  exact head_dropWhileDash _ _ h

theorem isCueBlock_cueLead (c : Cue) (now d : ℚ) :
    IsCueBlock c (cueLead now c.t ++ [Segment.speech (pyStrip c.text) d]) := by
  unfold cueLead
  refine ⟨if (c.t - 1.0) - now > 0.001 then [Segment.silence ((c.t - 1.0) - now)] else [],
    if c.t - cueAfterTone now c.t > 0.001
      then [Segment.silence (c.t - cueAfterTone now c.t)] else [],
    d, ?_, ?_, by simp [List.append_assoc]⟩
  · split_ifs with h1
    · exact Or.inr ⟨_, h1, rfl⟩
    · exact Or.inl rfl
  · split_ifs with h2
    · exact Or.inr ⟨_, h2, rfl⟩
    · exact Or.inl rfl

theorem buildLoop_segsMatch (synth : String → Except String ℚ) :
    ∀ (cues : List Cue) (p : List Segment) (n : ℚ) (st2 : BuildState),
      buildLoop synth cues ⟨p, n⟩ = Except.ok st2 →
      ∃ new, st2.parts = p ++ new ∧ SegsMatch cues new := by
  intro cues
  induction cues with
  | nil =>
      intro p n st2 hb
      simp only [buildLoop] at hb
      have : (⟨p, n⟩ : BuildState) = st2 := Except.ok.injEq _ _ ▸ hb
      exact ⟨[], by rw [← this]; simp, SegsMatch.nil⟩
  | cons c cs ih =>
      intro p n st2 hb
      simp only [buildLoop] at hb
      cases hproc : processCue synth ⟨p, n⟩ c with
      | error f => rw [hproc] at hb; exact absurd hb (by simp)
      | ok st1 =>
          rw [hproc] at hb
          rcases processCue_ok_cases synth ⟨p, n⟩ c st1 hproc with ⟨hemp, hst⟩ | ⟨hne, d, hd, hst⟩
          · subst hst
            obtain ⟨new, hparts, hmatch⟩ := ih p n st2 hb
            exact ⟨new, hparts, SegsMatch.skip hemp hmatch⟩
          · subst hst
            obtain ⟨new, hparts, hmatch⟩ :=
              ih (p ++ cueLead n c.t ++ [Segment.speech (pyStrip c.text) d])
                (cueEnd n c.t) st2 hb
            refine ⟨(cueLead n c.t ++ [Segment.speech (pyStrip c.text) d]) ++ new, ?_, ?_⟩
            · rw [hparts]; simp [List.append_assoc]
            · exact SegsMatch.cue hne (isCueBlock_cueLead c n d) hmatch

/-- C1 counterexample: on the example cues with the deterministic
half-second synthesizer, the build loop does not produce the spec's
expected sequence Silence(3.92), Tone(0.08), Silence(1.0),
Speech("start",0.5), Silence(3.42), Tone(0.08), Silence(1.0),
Speech("end",0.5) with final cursor 10.5. -/
theorem claim1_counterexample :
    ¬ (compile synthHalf exampleCues =
      Except.ok ⟨[Segment.silence 3.92, Segment.tone 0.08, Segment.silence 1,
        Segment.speech "start" 0.5, Segment.silence 3.42, Segment.tone 0.08,
        Segment.silence 1, Segment.speech "end" 0.5], 10.5⟩) := by
  norm_num +decide [compile, buildLoop, processCue, synthHalf, exampleCues, pyStrip]

/-- C1 amended: on the example cues with the deterministic half-second
synthesizer, the build loop produces Silence(4.0), Tone(0.08),
Silence(0.92), Speech("start",0.5), Silence(4.0), Tone(0.08),
Silence(0.92), Speech("end",0.5), and the final cursor equals 10.0: the
beep starts (rather than ends) at `t - 1.0`, and the cursor is not
advanced by the speech clips. -/
theorem claim1_amended :
    compile synthHalf exampleCues = Except.ok ⟨exSegs, 10⟩ := by
  norm_num +decide [compile, buildLoop, processCue, synthHalf, exampleCues, pyStrip, exSegs]

/-- C2 counterexample: for the single cue `{t:5.0, text:"x"}` and a
half-second synthesizer, the final cursor is 5.0 while the clip
durations sum to 5.5; the difference exceeds any floating-point
tolerance such as 1e-6, because the loop does not add speech durations
to the cursor. -/
theorem claim2_counterexample :
    compile synthHalf [⟨5.0, "x"⟩] =
      Except.ok ⟨[Segment.silence 4, Segment.tone 0.08, Segment.silence 0.92,
        Segment.speech "x" 0.5], 5⟩ ∧
    sumDur [Segment.silence 4, Segment.tone 0.08, Segment.silence 0.92,
      Segment.speech "x" 0.5] = 5.5 ∧
    (0.000001 : ℚ) < sumDur [Segment.silence 4, Segment.tone 0.08, Segment.silence 0.92,
      Segment.speech "x" 0.5] - 5 := by
  refine ⟨?_, ?_, ?_⟩
  · norm_num +decide [compile, buildLoop, processCue, synthHalf, pyStrip]
  · norm_num [sumDur, Segment.duration]
  · norm_num [sumDur, Segment.duration]

/-- C2 amended: during compilation and at its end, the cursor equals
the sum of the durations of the non-Speech clips emitted so far (Speech
clips contribute nothing, since step 5 of the loop does not advance
`now_t`); in particular the final cursor equals that sum, exactly. -/
theorem claim2_amended :
    (∀ (synth : String → Except String ℚ) (cues : List Cue) (st : BuildState),
      compile synth cues = Except.ok st → st.now_t = advSum st.parts) ∧
    (∀ (synth : String → Except String ℚ) (cues : List Cue) (st st2 : BuildState),
      buildLoop synth cues st = Except.ok st2 →
      st.now_t = advSum st.parts → st2.now_t = advSum st2.parts) := by
  have hstep : ∀ (synth : String → Except String ℚ) st c st2,
      processCue synth st c = Except.ok st2 →
      st.now_t = advSum st.parts → st2.now_t = advSum st2.parts := by
    intro synth st c st2 hp hP
    rcases processCue_ok_cases synth st c st2 hp with ⟨_, hst⟩ | ⟨_, d, _, hst⟩
    · exact hst ▸ hP
    · subst hst
      simp only [advSum_append]
      have h1 := cueLead_advSum st.now_t c.t
      have h2 : advSum [Segment.speech (pyStrip c.text) d] = 0 := by
        simp [advSum, Segment.isSpeech]
      rw [h1, h2, ← hP]
      ring
  refine ⟨?_, ?_⟩
  · intro synth cues st h
    exact buildLoop_ok_induct synth _ (hstep synth) cues ⟨[], 0⟩ st h (by simp [advSum])
  · intro synth cues st st2 h hP
    exact buildLoop_ok_induct synth _ (hstep synth) cues st st2 h hP

/-- C2 amended witness: the invariant evaluated on the end-to-end
example run. -/
theorem claim2_witness : (10 : ℚ) = advSum exSegs :=
  claim2_amended.1 synthHalf exampleCues ⟨exSegs, 10⟩
    (by norm_num +decide [compile, buildLoop, processCue, synthHalf, exampleCues,
      pyStrip, exSegs])

/-- C3: the TTS step leaves the cursor unchanged — for a non-empty cue
the resulting cursor is `cueEnd`, which does not depend on the
synthesized duration — and consequently the final cursor equals the sum
of the emitted Silence durations plus 0.08 times the number of emitted
Tone clips. -/
theorem claim3_speech_no_advance :
    (∀ (synth : String → Except String ℚ) (st : BuildState) (c : Cue) (d : ℚ)
      (st2 : BuildState), pyStrip c.text ≠ "" → synth (pyStrip c.text) = Except.ok d →
      processCue synth st c = Except.ok st2 → st2.now_t = cueEnd st.now_t c.t) ∧
    (∀ (synth : String → Except String ℚ) (cues : List Cue) (st : BuildState),
      compile synth cues = Except.ok st →
      st.now_t = silSum st.parts + 0.08 * (toneCnt st.parts : ℚ)) := by
  refine ⟨?_, ?_⟩
  · intro synth st c d st2 h hd hp
    rw [processCue_ok synth st c d h hd] at hp
    have hst : st2 = ⟨st.parts ++ cueLead st.now_t c.t ++ [Segment.speech (pyStrip c.text) d],
        cueEnd st.now_t c.t⟩ := (Except.ok.injEq _ _ ▸ hp.symm)
    rw [hst]
  · intro synth cues st h
    have hstep : ∀ st c st2, processCue synth st c = Except.ok st2 →
        st.now_t = silSum st.parts + 0.08 * (toneCnt st.parts : ℚ) →
        st2.now_t = silSum st2.parts + 0.08 * (toneCnt st2.parts : ℚ) := by
      intro st c st2 hp hP
      rcases processCue_ok_cases synth st c st2 hp with ⟨_, hst⟩ | ⟨_, d, _, hst⟩
      · exact hst ▸ hP
      · subst hst
        simp only [silSum_append, toneCnt_append]
        have h1 := cueLead_silSum st.now_t c.t
        have h2 : silSum [Segment.speech (pyStrip c.text) d] = 0 := by simp [silSum]
        have h3 : toneCnt (cueLead st.now_t c.t) = 1 := cueLead_toneCnt st.now_t c.t
        have h4 : toneCnt [Segment.speech (pyStrip c.text) d] = 0 := by
          simp [toneCnt, Segment.isTone]
        rw [h2, h3, h4, hP] at *
        push_cast
        linarith
    exact buildLoop_ok_induct synth _ hstep cues ⟨[], 0⟩ st h (by simp [silSum, toneCnt])

/-- C3 witness: both parts evaluated on concrete runs. -/
theorem claim3_witness :
    (5 : ℚ) = cueEnd 0 5 ∧
    (10 : ℚ) = silSum exSegs + 0.08 * (toneCnt exSegs : ℚ) := by
  constructor
  · exact claim3_speech_no_advance.1 synthHalf ⟨[], 0⟩ ⟨5, "x"⟩ 0.5
      ⟨[Segment.silence 4, Segment.tone 0.08, Segment.silence 0.92,
        Segment.speech "x" 0.5], 5⟩ (by decide) rfl
      (by norm_num +decide [processCue, synthHalf, pyStrip])
  · exact claim3_speech_no_advance.2 synthHalf exampleCues ⟨exSegs, 10⟩
      (by norm_num +decide [compile, buildLoop, processCue, synthHalf, exampleCues,
        pyStrip, exSegs])

theorem buildLoop_err_text (synth : String → Except String ℚ) :
    ∀ (cues : List Cue) (st : BuildState) (f : SynthFailure),
      buildLoop synth cues st = Except.error f → ∃ c ∈ cues, pyStrip c.text = f.text := by
  intro cues
  induction cues with
  | nil =>
      intro st f hb
      simp only [buildLoop] at hb
      exact absurd hb (by simp)
  | cons c cs ih =>
      intro st f hb
      simp only [buildLoop] at hb
      cases hproc : processCue synth st c with
      | error f1 =>
          rw [hproc] at hb
          have hf : f1 = f := by simpa using hb
          obtain ⟨_, _, hfe⟩ := processCue_err_cases synth st c f1 hproc
          exact ⟨c, List.mem_cons_self c cs, by rw [← hf, hfe]⟩
      | ok st1 =>
          rw [hproc] at hb
          obtain ⟨c2, hc2, ht⟩ := ih st1 f hb
          exact ⟨c2, List.mem_cons_of_mem c hc2, ht⟩

/-- C4 counterexample: when synthesis fails on the second cue of the
end-to-end example, the loop state at the failure already contains
three clips appended for that cue (its pre-beep silence, beep and fill
silence, the entries after index 4), so it is not true that no segment
was appended for the failing cue. -/
theorem claim4_counterexample :
    compile synthFailEnd exampleCues =
      Except.error ⟨"end", "synthesis failed", failParts, 10⟩ ∧
    failParts.drop 4 = [Segment.silence 4, Segment.tone 0.08, Segment.silence 0.92] := by
  constructor
  · norm_num +decide [compile, buildLoop, processCue, synthFailEnd, exampleCues,
      pyStrip, failParts]
  · rfl

/-- C4 amended: if the synthesizer fails on a (non-skipped) cue, the
session build fails as a whole; the propagated failure carries the
failing cue's stripped text (the loop index is not part of the raised
error) and the synthesizer's error; no Speech clip was substituted or
fabricated — every Speech clip in the state at the failure came from a
successful synthesis, so none exists for the failing text; the failing
cue's pre-beep silence, beep and fill clips appended before the
synthesis call do remain in that (discarded) state. -/
theorem claim4_failure :
    ∀ (synth : String → Except String ℚ) (cues : List Cue) (f : SynthFailure),
      compile synth cues = Except.error f →
      synth f.text = Except.error f.msg ∧
      (∃ c ∈ cues, pyStrip c.text = f.text) ∧
      (∀ s d, Segment.speech s d ∈ f.parts → synth s = Except.ok d) := by
  intro synth cues f h
  simp only [compile] at h
  have hstep : ∀ st c st2, processCue synth st c = Except.ok st2 →
      (∀ s d, Segment.speech s d ∈ st.parts → synth s = Except.ok d) →
      (∀ s d, Segment.speech s d ∈ st2.parts → synth s = Except.ok d) := by
    intro st c st2 hp hP
    rcases processCue_ok_cases synth st c st2 hp with ⟨_, hst⟩ | ⟨_, d, hd, hst⟩
    · exact hst ▸ hP
    · subst hst
      intro s d2 hmem
      simp only [List.append_assoc, List.mem_append] at hmem
      rcases hmem with hmem | hmem | hmem
      · exact hP s d2 hmem
      · rcases cueLead_mem st.now_t c.t _ hmem with ⟨g, hg, _⟩ | hg <;> exact absurd hg (by simp)
      · simp only [List.mem_singleton, Segment.speech.injEq] at hmem
        rw [hmem.1, hmem.2]
        exact hd
  have herr : ∀ st c f1, processCue synth st c = Except.error f1 →
      (∀ s d, Segment.speech s d ∈ st.parts → synth s = Except.ok d) →
      (synth f1.text = Except.error f1.msg ∧
        (∀ s d, Segment.speech s d ∈ f1.parts → synth s = Except.ok d)) := by
    intro st c f1 hp hP
    obtain ⟨hne, hsyn, hfe⟩ := processCue_err_cases synth st c f1 hp
    refine ⟨by rw [hfe]; exact hsyn, ?_⟩
    intro s d hmem
    rw [hfe] at hmem
    simp only [List.mem_append] at hmem
    rcases hmem with hmem | hmem
    · exact hP s d hmem
    · rcases cueLead_mem st.now_t c.t _ hmem with ⟨g, hg, _⟩ | hg <;> exact absurd hg (by simp)
  obtain ⟨h1, h2⟩ := buildLoop_err_induct synth _ _ hstep herr cues ⟨[], 0⟩ f h (by simp)
  exact ⟨h1, buildLoop_err_text synth cues ⟨[], 0⟩ f h, h2⟩

/-- C4 amended witness: the failure facts evaluated on the end-to-end
example with synthesis failing on `"end"`. -/
theorem claim4_witness :
    synthFailEnd "end" = Except.error "synthesis failed" ∧
    (∃ c ∈ exampleCues, pyStrip c.text = "end") ∧
    (∀ s d, Segment.speech s d ∈ failParts → synthFailEnd s = Except.ok d) :=
  claim4_failure synthFailEnd exampleCues ⟨"end", "synthesis failed", failParts, 10⟩
    (by norm_num +decide [compile, buildLoop, processCue, synthFailEnd, exampleCues,
      pyStrip, failParts])

/-- C5: for a cue with non-empty stripped text and successful
synthesis, the loop appends exactly: a Silence of duration
`preGap = (t - 1.0) - cursor` if and only if `preGap > 0.001`, the
0.08 s beep, a Silence of duration `fill = t - cursor'` (cursor after
the beep) if and only if `fill > 0.001`, then the Speech clip; and the
cursor advances by exactly the emitted silences plus 0.08. -/
theorem claim5_silence_iff :
    ∀ (synth : String → Except String ℚ) (st : BuildState) (c : Cue) (d : ℚ),
      pyStrip c.text ≠ "" → synth (pyStrip c.text) = Except.ok d →
      processCue synth st c = Except.ok
        ⟨st.parts ++
          ((if (c.t - 1.0) - st.now_t > 0.001
              then [Segment.silence ((c.t - 1.0) - st.now_t)] else []) ++
            [Segment.tone 0.08] ++
            (if c.t - cueAfterTone st.now_t c.t > 0.001
              then [Segment.silence (c.t - cueAfterTone st.now_t c.t)] else []) ++
            [Segment.speech (pyStrip c.text) d]),
          cueEnd st.now_t c.t⟩ ∧
      cueEnd st.now_t c.t =
        st.now_t +
          (if (c.t - 1.0) - st.now_t > 0.001 then (c.t - 1.0) - st.now_t else 0) + 0.08 +
          (if c.t - cueAfterTone st.now_t c.t > 0.001
            then c.t - cueAfterTone st.now_t c.t else 0) := by
  intro synth st c d h hd
  constructor
  · rw [processCue_ok synth st c d h hd]
    simp [cueLead, List.append_assoc]
  · unfold cueEnd cueAfterTone cueAfterPre
    split_ifs <;> ring

/-- C5 witness: the characterization evaluated for the cue
`{t:5, text:"x"}` from cursor 0 with a half-second synthesizer: both
gaps exceed epsilon, so both silences are emitted. -/
theorem claim5_witness :
    processCue synthHalf ⟨[], 0⟩ ⟨5, "x"⟩ =
      Except.ok ⟨[Segment.silence 4, Segment.tone 0.08, Segment.silence 0.92,
        Segment.speech "x" 0.5], cueEnd 0 5⟩ ∧
    cueEnd 0 5 = 5 := by
  have h := claim5_silence_iff synthHalf ⟨[], 0⟩ ⟨5, "x"⟩ 0.5 (by decide) rfl
  constructor
  · rw [h.1]
    norm_num +decide [cueAfterTone, cueAfterPre, pyStrip]
  · rw [h.2]
    norm_num [cueAfterTone, cueAfterPre]

theorem buildLoop_append (synth : String → Except String ℚ) :
    ∀ (xs ys : List Cue) (st : BuildState),
      buildLoop synth (xs ++ ys) st =
        match buildLoop synth xs st with
        | Except.error f => Except.error f
        | Except.ok st1 => buildLoop synth ys st1 := by
  intro xs
  induction xs with
  | nil => intro ys st; simp [buildLoop]
  | cons c cs ih =>
      intro ys st
      simp only [List.cons_append, buildLoop]
      cases hproc : processCue synth st c with
      | error f => rfl
      | ok st1 => exact ih ys st1

/-- C6: a cue whose text strips to empty contributes nothing at all:
deleting it from the cue list leaves the compilation result (all
segments and the cursor) unchanged. -/
theorem claim6_skip_empty :
    ∀ (synth : String → Except String ℚ) (pre post : List Cue) (c : Cue),
      pyStrip c.text = "" →
      compile synth (pre ++ c :: post) = compile synth (pre ++ post) := by
  intro synth pre post c h
  unfold compile
  rw [buildLoop_append synth pre (c :: post), buildLoop_append synth pre post]
  cases hb : buildLoop synth pre ⟨[], 0⟩ with
  | error f => rfl
  | ok st1 => simp only [buildLoop, processCue_skip synth st1 c h]

/-- C6 witness: removing a whitespace-only cue from a concrete session
leaves the compiled result unchanged. -/
theorem claim6_witness :
    compile synthHalf ([⟨5, "x"⟩] ++ ⟨7, "   "⟩ :: []) =
      compile synthHalf ([⟨5, "x"⟩] ++ []) :=
  claim6_skip_empty synthHalf [⟨5, "x"⟩] [] ⟨7, "   "⟩ (by decide)

/-- C7: assuming the synthesizer reports non-negative measured
durations, every emitted clip has non-negative duration, every emitted
Silence clip is strictly longer than the 0.001 epsilon, the final
cursor is non-negative, and the cursor never decreases across the
loop. -/
theorem claim7_safety :
    (∀ (synth : String → Except String ℚ) (cues : List Cue) (st : BuildState),
      (∀ s d, synth s = Except.ok d → 0 ≤ d) → compile synth cues = Except.ok st →
      (∀ seg ∈ st.parts, 0 ≤ seg.duration) ∧
      (∀ g, Segment.silence g ∈ st.parts → 0.001 < g) ∧ 0 ≤ st.now_t) ∧
    (∀ (synth : String → Except String ℚ) (cues : List Cue) (st st2 : BuildState),
      buildLoop synth cues st = Except.ok st2 → st.now_t ≤ st2.now_t) := by
  have hmono : ∀ (synth : String → Except String ℚ) (cues : List Cue) (st st2 : BuildState),
      buildLoop synth cues st = Except.ok st2 → st.now_t ≤ st2.now_t := by
    intro synth cues st st2 h
    have hstep : ∀ s c s2, processCue synth s c = Except.ok s2 →
        st.now_t ≤ s.now_t → st.now_t ≤ s2.now_t := by
      intro s c s2 hp hle
      rcases processCue_ok_cases synth s c s2 hp with ⟨_, hst⟩ | ⟨_, d, _, hst⟩
      · exact hst ▸ hle
      · subst hst
        have := cueEnd_ge s.now_t c.t
        simp only
        linarith
    exact buildLoop_ok_induct synth (fun s => st.now_t ≤ s.now_t) hstep cues st st2 h le_rfl
  refine ⟨?_, hmono⟩
  intro synth cues st hsynth h
  have hparts : (∀ seg ∈ st.parts, 0 ≤ seg.duration) ∧
      (∀ g, Segment.silence g ∈ st.parts → 0.001 < g) := by
    have hstep : ∀ s c s2, processCue synth s c = Except.ok s2 →
        ((∀ seg ∈ s.parts, 0 ≤ seg.duration) ∧
          (∀ g, Segment.silence g ∈ s.parts → 0.001 < g)) →
        ((∀ seg ∈ s2.parts, 0 ≤ seg.duration) ∧
          (∀ g, Segment.silence g ∈ s2.parts → 0.001 < g)) := by
      intro s c s2 hp hP
      rcases processCue_ok_cases synth s c s2 hp with ⟨_, hst⟩ | ⟨_, d, hd, hst⟩
      · exact hst ▸ hP
      · subst hst
        constructor
        · intro seg hmem
          simp only [List.append_assoc, List.mem_append] at hmem
          rcases hmem with hmem | hmem | hmem
          · exact hP.1 seg hmem
          · rcases cueLead_mem s.now_t c.t seg hmem with ⟨g, hg, hgpos⟩ | hg
            · rw [hg]; simp only [Segment.duration]; linarith
            · rw [hg]; simp only [Segment.duration]; norm_num
          · simp only [List.mem_singleton] at hmem
            rw [hmem]
            exact hsynth _ _ hd
        · intro g hmem
          simp only [List.append_assoc, List.mem_append] at hmem
          rcases hmem with hmem | hmem | hmem
          · exact hP.2 g hmem
          · rcases cueLead_mem s.now_t c.t _ hmem with ⟨g2, hg, hgpos⟩ | hg
            · rw [Segment.silence.injEq] at hg; exact hg ▸ hgpos
            · exact absurd hg (by simp)
          · exact absurd hmem (by simp)
    exact buildLoop_ok_induct synth _ hstep cues ⟨[], 0⟩ st h (by simp)
  refine ⟨hparts.1, hparts.2, ?_⟩
  have := hmono synth cues ⟨[], 0⟩ st h
  simpa using this

/-- C7 witness: the safety facts evaluated on the end-to-end example
run. -/
theorem claim7_witness :
    ((∀ seg ∈ exSegs, 0 ≤ seg.duration) ∧
      (∀ g, Segment.silence g ∈ exSegs → 0.001 < g) ∧ (0 : ℚ) ≤ 10) ∧
    (0 : ℚ) ≤ 10 := by
  constructor
  · exact claim7_safety.1 synthHalf exampleCues ⟨exSegs, 10⟩
      (fun s d hd => by
        simp only [synthHalf, Except.ok.injEq] at hd
        rw [← hd]; norm_num)
      (by norm_num +decide [compile, buildLoop, processCue, synthHalf, exampleCues,
        pyStrip, exSegs])
  · exact claim7_safety.2 synthHalf exampleCues ⟨[], 0⟩ ⟨exSegs, 10⟩
      (by norm_num +decide [compile, buildLoop, processCue, synthHalf, exampleCues,
        pyStrip, exSegs])

/-- C8: the output decomposes cue-by-cue in input order: skipped cues
contribute nothing, and every non-empty cue contributes optional
Silence, its Tone, optional Silence, then its own Speech clip. -/
theorem claim8_ordering :
    ∀ (synth : String → Except String ℚ) (cues : List Cue) (st : BuildState),
      compile synth cues = Except.ok st → SegsMatch cues st.parts := by
  intro synth cues st h
  simp only [compile] at h
  obtain ⟨new, hp, hm⟩ := buildLoop_segsMatch synth cues [] 0 st h
  rw [hp, List.nil_append]
  exact hm

/-- C8 witness: the decomposition evaluated on the end-to-end example
run. -/
theorem claim8_witness : SegsMatch exampleCues exSegs :=
  claim8_ordering synthHalf exampleCues ⟨exSegs, 10⟩
    (by norm_num +decide [compile, buildLoop, processCue, synthHalf, exampleCues,
      pyStrip, exSegs])

/-- C9: for cues at 2.0 and 2.05, the second cue's beep is emitted
immediately after the first cue's speech clip — the negative pre-gap is
clamped to emitting no silence — so in the concatenated timeline it
starts exactly at (hence not before) the end of the first speech
clip, for any synthesized durations. -/
theorem claim9_drift :
    ∀ (synth : String → Except String ℚ) (d0 d1 : ℚ),
      synth "a" = Except.ok d0 → synth "b" = Except.ok d1 →
      compile synth driftCues = Except.ok ⟨driftSegs d0 d1, 2.08⟩ ∧
      startAt (driftSegs d0 d1) 3 + Segment.duration (Segment.speech "a" d0) ≤
        startAt (driftSegs d0 d1) 4 := by
  intro synth d0 d1 h0 h1
  have hne0 : pyStrip (Cue.mk 2 "a").text ≠ "" := by decide
  have hne1 : pyStrip (Cue.mk 2.05 "b").text ≠ "" := by decide
  have hps0 : pyStrip (Cue.mk 2 "a").text = "a" := by decide
  have hps1 : pyStrip (Cue.mk 2.05 "b").text = "b" := by decide
  have h0' : synth (pyStrip (Cue.mk 2 "a").text) = Except.ok d0 := by rw [hps0]; exact h0
  have h1' : synth (pyStrip (Cue.mk 2.05 "b").text) = Except.ok d1 := by rw [hps1]; exact h1
  constructor
  · have e1 : processCue synth ⟨[], 0⟩ ⟨2, "a"⟩ =
        Except.ok ⟨[Segment.silence 1, Segment.tone 0.08, Segment.silence 0.92,
          Segment.speech "a" d0], 2⟩ := by
      rw [processCue_ok synth ⟨[], 0⟩ ⟨2, "a"⟩ d0 hne0 h0']
      norm_num +decide [cueLead, cueEnd, cueAfterTone, cueAfterPre, pyStrip]
    have e2 : processCue synth ⟨[Segment.silence 1, Segment.tone 0.08, Segment.silence 0.92,
          Segment.speech "a" d0], 2⟩ ⟨2.05, "b"⟩ =
        Except.ok ⟨driftSegs d0 d1, 2.08⟩ := by
      rw [processCue_ok synth _ ⟨2.05, "b"⟩ d1 hne1 h1']
      norm_num +decide [cueLead, cueEnd, cueAfterTone, cueAfterPre, pyStrip, driftSegs]
    simp only [compile, driftCues, buildLoop, e1, e2]
  · simp only [driftSegs, startAt, sumDur, Segment.duration, List.take, List.map,
      List.sum_cons, List.sum_nil]
    norm_num
    linarith

/-- C9 witness: the drift example evaluated with the deterministic
half-second synthesizer. -/
theorem claim9_witness :
    compile synthHalf driftCues = Except.ok ⟨driftSegs 0.5 0.5, 2.08⟩ ∧
    startAt (driftSegs 0.5 0.5) 3 + Segment.duration (Segment.speech "a" 0.5) ≤
      startAt (driftSegs 0.5 0.5) 4 :=
  claim9_drift synthHalf 0.5 0.5 rfl rfl

/-- C10: `slugify` deterministically lowercases the title, collapses
every run of non-alphanumerics to one `'-'`, strips the separator from
both ends (so before truncation the slug has no leading or trailing
separator), and truncates to at most 80 characters, every output
character being a lowercase alphanumeric or `'-'`; equal titles give
equal slugs while distinct titles can collide. -/
theorem claim10_slugify :
    (∀ t1 t2 : String, t1 = t2 → slugify t1 = slugify t2) ∧
    (slugify "Hello  Run!!" = slugify "hello run" ∧ "Hello  Run!!" ≠ "hello run") ∧
    (∀ t : String, (slugify t).length ≤ 80) ∧
    (∀ (t : String) (c : Char), c ∈ (slugify t).data → isSlugKeep c = true ∨ c = '-') ∧
    (∀ (t : String) (c : Char),
      ((stripDash (collapseRuns false (t.data.map Char.toLower))).head? = some c →
        ¬ c = '-') ∧
      ((stripDash (collapseRuns false (t.data.map Char.toLower))).getLast? = some c →
        ¬ c = '-')) ∧
    slugify "My Run  -- Coach #1" = "my-run-coach-1" := by
  refine ⟨fun t1 t2 h => h ▸ rfl, ⟨by decide, by decide⟩, ?_, ?_, ?_, by decide⟩
  · intro t
    have hlen : (slugify t).length =
        ((stripDash (collapseRuns false (t.data.map Char.toLower))).take 80).length := rfl
    rw [hlen]
    exact List.length_take_le _ _
  · intro t c hc
    have h1 := mem_of_take 80 _ c hc
    have h2 := stripDash_chars _ c h1
    exact collapseRuns_chars false _ c h2
  · intro t c
    exact ⟨fun h => stripDash_head _ c h, fun h => stripDash_last _ c h⟩

/-- C10 witness: the implications of the slug theorem discharged at
concrete titles. -/
theorem claim10_witness :
    slugify "Run" = slugify "Run" ∧ ¬ ('m' = '-') ∧ ¬ ('n' = '-') := by
  refine ⟨claim10_slugify.1 "Run" "Run" rfl, ?_, ?_⟩
  · exact (claim10_slugify.2.2.2.2.1 "My Run" 'm').1 (by decide)
  · exact (claim10_slugify.2.2.2.2.1 "My Run" 'n').2 (by decide)

end TtsBuild
